import Mathlib

/-!
Verification development for the LS-PrePost rotation/replication script
`rotation_transformation.py`.

The script is embedded shallowly:

* A whitespace-separated token of the input file is modelled by `Tok`:
  a token that Python's `int()` accepts, one that only `float()` accepts
  (numeric values are modelled as exact rationals), or any other token.
* A line is the list of its tokens (`Line`); the `*ELEMENT_SOLID_NURBS_PATCH`
  section is a list of `SLine`s, which additionally record whether the raw
  line starts with the comment marker `$#` (`comment` field).
* Python list indexing (which raises `IndexError` out of range and counts
  from the end for negative indices) is `pyGet`; Python slicing (which
  clamps and never raises) is `pySlice`; a list comprehension over fallible
  element expressions is `pyMapM`.
* Fallible code returns `Option`: `none` models an uncaught Python
  exception (`IndexError`, `ValueError` escaping a `try`, `NameError`).
* Floating point numbers are idealised as `ℚ` where the script only
  parses, filters and reprints them, and as `ℝ` in the trigonometric
  rotation code.  String rendering of the output file is not modelled:
  the emitted `*ELEMENT_SOLID_NURBS_PATCH` section is produced as the
  structured list of emitted patches (`PatchRec`), from which the text is
  formatted field by field.
-/

/-- A whitespace-separated token of the input file.  `Tok.int` is a token
accepted by Python's `int()` (hence also by `float()`), `Tok.real` one
accepted only by `float()`, `Tok.other` anything else. -/
inductive Tok
  | int (n : ℤ)
  | real (q : ℚ)
  | other
deriving DecidableEq, Repr

/-- A line of the input, as the list of its whitespace-separated tokens
(the result of Python's `line.split()`). -/
abbrev Line := List Tok

/-- Python `int(tok)`: succeeds exactly on integer-literal tokens. -/
def pyInt : Tok → Option ℤ
  | .int n => some n
  | .real _ => none
  | .other => none

/-- Python `float(tok)`: succeeds on integer and real literal tokens. -/
def pyFloat : Tok → Option ℚ
  | .int n => some (n : ℚ)
  | .real q => some q
  | .other => none

/-- A Python `for`-comprehension applying a fallible expression to every
element: the first uncaught exception aborts the whole computation. -/
def pyMapM : List α → (α → Option β) → Option (List β)
  | [], _ => some []
  | a :: t, f => (f a).bind fun b => (pyMapM t f).map fun bs => b :: bs

/-- Python list indexing `l[i]`: negative indices count from the end,
out-of-range indices raise `IndexError` (modelled as `none`). -/
def pyGet (l : List α) (i : ℤ) : Option α :=
  if 0 ≤ i then l.get? i.toNat
  else if 0 ≤ (l.length : ℤ) + i then l.get? ((l.length : ℤ) + i).toNat
  else none

/-- The start/stop bound of a Python slice `l[a:b]`, normalised to a
position in `0 .. l.length` (negative indices count from the end, and
bounds are clamped; slicing never raises). -/
def pySliceIdx (len : ℕ) (i : ℤ) : ℕ :=
  if i < 0 then ((len : ℤ) + i).toNat else min i.toNat len

/-- Python slicing `l[a:b]` (step 1). -/
def pySlice (l : List α) (a b : ℤ) : List α :=
  (l.take (pySliceIdx l.length b)).drop (pySliceIdx l.length a)

/-! ### Node table extraction (`extract_node_coordinates`, lines 11-39) -/

/-- A node record `(node_number, x, y, z)` as parsed from the `*NODE`
section (coordinates are the exact values of the float literals). -/
structure NodeQ where
  num : ℤ
  x : ℚ
  y : ℚ
  z : ℚ
deriving DecidableEq, Repr

/-- One iteration of the extraction loop body (lines 28-37) on a split
line `parts`.  Returns `none` for an uncaught exception (`parts[0]` on a
token-free line raises `IndexError`, which the `except ValueError` does
not catch), `some none` for a line skipped by the `except ValueError`
branch (first token not an integer, or `parts[1:4]` not exactly three
floats), and `some (some node)` for a parsed node. -/
def parse_node_line (parts : Line) : Option (Option NodeQ) :=
  match parts with
  | [] => none
  | t0 :: _ =>
    match pyInt t0 with
    | none => some none
    | some num =>
      match pyMapM (pySlice parts 1 4) pyFloat with
      | none => some none
      | some cs =>
        match cs with
        | [x, y, z] => some (some ⟨num, x, y, z⟩)
        | _ => some none

/-- `extract_node_coordinates` (lines 11-39), taking the `*NODE` section
body as its list of split lines (an empty section body splits to the
single empty line `[[]]`).  Skipped lines are dropped; an uncaught
exception in any line aborts extraction. -/
def extract_node_coordinates (node_lines : List Line) : Option (List NodeQ) :=
  (pyMapM node_lines parse_node_line).map fun l => l.filterMap id

/-! ### Rotation (`transform_nodes`, lines 41-78) -/

/-- A node with real coordinates, as consumed by the rotation stage. -/
structure NodeR where
  num : ℤ
  x : ℝ
  y : ℝ
  z : ℝ

/-- Python `math.radians` (line 51): degrees to radians. -/
noncomputable def radians (deg : ℝ) : ℝ := deg * (Real.pi / 180)

/-- The body of the `transform_nodes` loop (lines 54-76) for one node:
rotates the coordinate pair orthogonal to `axis_of_rotation` and raises
`ValueError` (modelled `none`) for any axis other than `"x"`, `"y"`,
`"z"`.  `c` and `s` are the cosine and sine of the rotation angle. -/
def transform_node_step (c s : ℝ) (axis_of_rotation : String) (n : NodeR) :
    Option NodeR :=
  if axis_of_rotation = "x" then
    some ⟨n.num, n.x, n.y * c - n.z * s, n.y * s + n.z * c⟩
  else if axis_of_rotation = "y" then
    some ⟨n.num, n.x * c + n.z * s, n.y, -n.x * s + n.z * c⟩
  else if axis_of_rotation = "z" then
    some ⟨n.num, n.x * c - n.y * s, n.x * s + n.y * c, n.z⟩
  else none

/-- `transform_nodes` (lines 41-78).  The invalid-axis `ValueError` is
raised inside the per-node loop, so it surfaces only when the node list
is non-empty. -/
noncomputable def transform_nodes (nodes_data : List NodeR)
    (angle_degrees : ℝ) (axis_of_rotation : String) : Option (List NodeR) :=
  let angle_rad := radians angle_degrees
  pyMapM nodes_data
    (transform_node_step (Real.cos angle_rad) (Real.sin angle_rad)
      axis_of_rotation)

/-! ### Renumbering and merging (lines 80-140) -/

/-- The `enumerate` loop of `update_node_numbers`, carrying the running
index `i`. -/
def update_node_numbers_aux (max_node_number : ℤ) (i : ℕ) :
    List NodeR → List NodeR
  | [] => []
  | n :: t =>
    ⟨max_node_number + i + 1, n.x, n.y, n.z⟩ ::
      update_node_numbers_aux max_node_number (i + 1) t

/-- `update_node_numbers` (lines 80-93): node `i` (0-based) of the
transformed copy receives id `max_node_number + i + 1`. -/
def update_node_numbers (transformed_nodes : List NodeR)
    (max_node_number : ℤ) : List NodeR :=
  update_node_numbers_aux max_node_number 0 transformed_nodes

/-- `merge_nodes` (lines 95-106): concatenate and stable-sort by id
(Python `list.sort(key=lambda x: x[0])`). -/
def merge_nodes (original_nodes transformed_nodes : List NodeR) :
    List NodeR :=
  (original_nodes ++ transformed_nodes).insertionSort
    fun u v => u.num ≤ v.num

/-- Python `max()` over a non-empty sequence (`none` models the
`ValueError` raised on an empty one). -/
def py_max : List ℤ → Option ℤ
  | [] => none
  | x :: t => some (t.foldl max x)

/-- The accumulation loop of `patches_transformed_nodes`
(lines 118-132), threading the merged node table through the angle
list.  Each iteration transforms the *original* table, renumbers it
above the current maximum id and merges. -/
noncomputable def patches_merge_loop (original_nodes_data : List NodeR)
    (axis_of_rotation : String) :
    List ℝ → List NodeR → Option (List NodeR)
  | [], merged_nodes => some merged_nodes
  | angle :: rest, merged_nodes =>
    (transform_nodes original_nodes_data angle axis_of_rotation).bind
      fun transformed_nodes =>
        (if merged_nodes.isEmpty then py_max (original_nodes_data.map NodeR.num)
         else py_max (merged_nodes.map NodeR.num)).bind
          fun max_node_number =>
            patches_merge_loop original_nodes_data axis_of_rotation rest
              (merge_nodes merged_nodes
                (update_node_numbers transformed_nodes max_node_number))

/-- `patches_transformed_nodes` (lines 108-140), up to its final merged
node table (the keyword-string rendering of that table is not
modelled). -/
noncomputable def patches_transformed_nodes
    (original_nodes_data : List NodeR) (angles : List ℝ)
    (axis_of_rotation : String) : Option (List NodeR) :=
  patches_merge_loop original_nodes_data axis_of_rotation angles
    original_nodes_data

/-! ### Patch block decoder/replicator (`merge_nurbs_patches`, lines 142-278) -/

/-- A raw line of the `*ELEMENT_SOLID_NURBS_PATCH` section body:
`comment` records whether the raw text line starts with `$#`
(`line.startswith('$#')`, line 158), `toks` is `line.split()`. -/
structure SLine where
  comment : Bool
  toks : Line
deriving DecidableEq, Repr

/-- State carried by the sequential patch scanner across one copy's
patches: the previous patch's `tk_end`, `npr`, `nps`, `npt`, `wf1`
(initialised per copy at lines 166-170). -/
structure DecSt where
  tkEnd : ℤ
  npr : ℤ
  nps : ℤ
  npt : ℤ
  wf1 : ℤ
deriving DecidableEq, Repr

/-- The scanner state at the start of each copy (lines 166-170):
`tk_end = 0, nps = 0, npt = 0, wf1 = 1, npr = 0`. -/
def decSt0 : DecSt := ⟨0, 0, 0, 0, 1⟩

/-- Replication state threaded across *all* copies: the running
`patch_id` and `node_num` counters (lines 162-163), and whether the
connectivity loop variable `k` has ever been bound (Python raises
`NameError` at `node_num = k`, line 276, if it has not). -/
structure RunSt where
  patchId : ℤ
  nodeNum : ℤ
  kDef : Bool
deriving DecidableEq, Repr

/-- The replication state before the first copy. -/
def runSt0 : RunSt := ⟨0, 0, false⟩

/-- The cursor formula of lines 173-176: the start line of the next
patch, computed from the previous patch's decoded header state. -/
def block_line_formula (d : DecSt) : ℤ :=
  if d.wf1 = 1 then d.tkEnd + ((d.npr.fdiv 8) + 1) * 2 * (d.nps * d.npt)
  else d.tkEnd + d.nps * d.npt

/-- Reading a block of lines as a flat float list:
`[float(num) for line in lines[a:b] for num in line.split()]`
(lines 192-194, and the equivalent `extend` loop of lines 202-205). -/
def read_reals (lines : List Line) (a b : ℤ) : Option (List ℚ) :=
  pyMapM (pySlice lines a b).flatten pyFloat

/-- Header line 1 (lines 178, 180): fetch `element_section_lines[bl]`,
then `npeid, pid, npr, pr, nps, ps, npt, pt = map(int, part[0:8])`
(unpacking needs exactly eight integer tokens; otherwise the
`ValueError`/`IndexError` escapes). -/
def read_header1 (lines : List Line) (bl : ℤ) :
    Option (ℤ × ℤ × ℤ × ℤ × ℤ × ℤ × ℤ × ℤ) :=
  (pyGet lines bl).bind fun element_part =>
    (pyMapM (pySlice element_part 0 8) pyInt).bind fun vals =>
      match vals with
      | [npeid, pid, npr, pr, nps, ps, npt, pt] =>
        some (npeid, pid, npr, pr, nps, ps, npt, pt)
      | _ => none

/-- Header line 2 (lines 179, 182): fetch `element_section_lines[bl+1]`,
then `wf1, nisr, niss, nist, imass, *other_values = map(int, part2[0:8])`
(at least five integer tokens; the starred rest collects up to three
more). -/
def read_header2 (lines : List Line) (bl : ℤ) :
    Option (ℤ × ℤ × ℤ × ℤ × ℤ × List ℤ) :=
  (pyGet lines (bl + 1)).bind fun element_part2 =>
    (pyMapM (pySlice element_part2 0 8) pyInt).bind fun vals =>
      match vals with
      | wf1 :: nisr :: niss :: nist :: imass :: other_values =>
        some (wf1, nisr, niss, nist, imass, other_values)
      | _ => none

/-- The weight emission loop (lines 260-275), restricted to the values
it consumes: for `l in range(npr*npt*nps)`, if the filtered weight list
is non-empty, index it at `l` (raising `IndexError` past its end);
if it is empty every iteration is skipped by `continue`. -/
def emit_weights (weight_value : List ℚ) (cnt : ℤ) : Option (List ℚ) :=
  if weight_value = [] then some []
  else pyMapM (List.range cnt.toNat) fun l => pyGet weight_value l

/-- One decoded and re-emitted patch.  Decoder fields (`blockLine`,
header integers, `tkEnd`, raw knot vectors, filtered non-zero weights)
record lines 172-209; emission fields (`patchIdOut`, `connIds`,
`weightsOut`) record the patch written at lines 211-277 (knot values
are written rounded to 6 decimals; that rounding, like all string
formatting, is part of the unmodelled text rendering). -/
structure PatchRec where
  blockLine : ℤ
  npeid : ℤ
  pid : ℤ
  npr : ℤ
  pr : ℤ
  nps : ℤ
  ps : ℤ
  npt : ℤ
  pt : ℤ
  wf1 : ℤ
  nisr : ℤ
  niss : ℤ
  nist : ℤ
  imass : ℤ
  other_values : List ℤ
  tkEnd : ℤ
  knotR : List ℚ
  knotS : List ℚ
  knotT : List ℚ
  weights : List ℚ
  patchIdOut : ℤ
  connIds : List ℤ
  weightsOut : List ℚ
deriving DecidableEq, Repr

/-- Decode the patch starting at line `bl` and emit its replicated copy
(one iteration of the `j` loop, lines 172-277, minus the cursor
computation).  Returns the patch record and the updated replication
state. -/
def decodeAt (lines : List Line) (bl : ℤ) (r : RunSt) :
    Option (PatchRec × RunSt) :=
  (read_header1 lines bl).bind fun (npeid, pid, npr, pr, nps, ps, npt, pt) =>
    (read_header2 lines bl).bind fun (wf1, nisr, niss, nist, imass, other_values) =>
      let rk_end := (npr + pr + 1 + 7).fdiv 8 + (bl + 2)
      let sk_end := rk_end + (nps + ps + 1 + 7).fdiv 8
      let tk_end := sk_end + (npt + pt + 1 + 7).fdiv 8
      (read_reals lines (bl + 2) rk_end).bind fun knot_r =>
        (read_reals lines rk_end sk_end).bind fun knot_s =>
          (read_reals lines sk_end tk_end).bind fun knot_t =>
            let np_lines := ((npr.fdiv 8) + 1) * nps * npt
            (if wf1 = 1 then
               read_reals lines (tk_end + np_lines) (tk_end + np_lines + np_lines)
             else some []).bind fun weight_raw =>
              let weight_value := weight_raw.filter fun v => v ≠ 0
              let cnt := npr * npt * nps
              (if 0 < cnt then some (r.nodeNum + cnt, true)
               else if r.kDef then some (r.nodeNum, r.kDef)
               else none).bind fun nk =>
                (emit_weights weight_value cnt).bind fun wout =>
                  some
                    ({ blockLine := bl, npeid := npeid, pid := pid,
                       npr := npr, pr := pr, nps := nps, ps := ps,
                       npt := npt, pt := pt, wf1 := wf1, nisr := nisr,
                       niss := niss, nist := nist, imass := imass,
                       other_values := other_values, tkEnd := tk_end,
                       knotR := knot_r, knotS := knot_s, knotT := knot_t,
                       weights := weight_value,
                       patchIdOut := r.patchId + 1,
                       connIds :=
                         if 0 < cnt then
                           (List.range cnt.toNat).map fun k =>
                             r.nodeNum + 1 + (k : ℤ)
                         else [],
                       weightsOut := wout },
                     { patchId := r.patchId + 1, nodeNum := nk.1,
                       kDef := nk.2 })

/-- The scanner state after a patch: its `tk_end`, `npr`, `nps`, `npt`,
`wf1` (the Python variables simply retain the decoded values). -/
def decStOf (p : PatchRec) : DecSt := ⟨p.tkEnd, p.npr, p.nps, p.npt, p.wf1⟩

/-- One iteration of the inner `j` loop (lines 172-277): compute the
cursor from the carried state, then decode and emit. -/
def decode_emit_patch (lines : List Line) (d : DecSt) (r : RunSt) :
    Option (PatchRec × DecSt × RunSt) :=
  (decodeAt lines (block_line_formula d) r).map fun pr =>
    (pr.1, decStOf pr.1, pr.2)

/-- The inner `j` loop over `inital_nurbs_patches` patches of one copy
(line 172), returning the emitted patch records in order. -/
def runCopy (lines : List Line) :
    ℕ → DecSt → RunSt → Option (List PatchRec × RunSt)
  | 0, _, r => some ([], r)
  | n + 1, d, r =>
    (decode_emit_patch lines d r).bind fun pdr =>
      (runCopy lines n pdr.2.1 pdr.2.2).bind fun psr =>
        some (pdr.1 :: psr.1, psr.2)

/-- The outer `i` loop over `len(angles) + 1` copies (line 165); the
scanner state is re-initialised to `decSt0` for every copy, while the
replication state threads through. -/
def runCopies (lines : List Line) (inital_nurbs_patches : ℕ) :
    ℕ → RunSt → Option (List PatchRec × RunSt)
  | 0, r => some ([], r)
  | k + 1, r =>
    (runCopy lines inital_nurbs_patches decSt0 r).bind fun psr =>
      (runCopies lines inital_nurbs_patches k psr.2).bind fun qsr =>
        some (psr.1 ++ qsr.1, qsr.2)

/-- `merge_nurbs_patches` (lines 142-278), taking the section body as
its raw lines and returning the structured emitted patch list.  Comment
lines (`startswith('$#')`) are removed up front (line 158), before any
cursor arithmetic. -/
def merge_nurbs_patches (element_section_lines : List SLine)
    (angles : List ℝ) (inital_nurbs_patches : ℤ) :
    Option (List PatchRec) :=
  let lines :=
    ((element_section_lines.filter fun l => !l.comment).map SLine.toks)
  (runCopies lines inital_nurbs_patches.toNat (angles.length + 1)
      runSt0).map Prod.fst

/-! ### Definitions modelled from the specification text, for comparison -/

/-- The standard 2D rotation matrix `[cosθ, -sinθ; sinθ, cosθ]` applied
to a coordinate pair `(u, v)` (spec §4.2). -/
def rot2 (c s u v : ℝ) : ℝ × ℝ := (c * u - s * v, s * u + c * v)

/-- The per-node rotation as worded by the specification (§4.2): the
coordinate on the rotation axis is unchanged and the other two
coordinates are rotated by the standard 2D matrix, with the stated sign
convention `x' = x·cosθ + z·sinθ`, `z' = -x·sinθ + z·cosθ` for axis
`y`. -/
noncomputable def claim_rotated_node (angle_degrees : ℝ) (axis : String)
    (n : NodeR) : NodeR :=
  let c := Real.cos (radians angle_degrees)
  let s := Real.sin (radians angle_degrees)
  if axis = "x" then
    ⟨n.num, n.x, (rot2 c s n.y n.z).1, (rot2 c s n.y n.z).2⟩
  else if axis = "y" then
    ⟨n.num, n.x * c + n.z * s, n.y, -(n.x * s) + n.z * c⟩
  else
    ⟨n.num, (rot2 c s n.x n.y).1, (rot2 c s n.x n.y).2, n.z⟩

/-- The claimed cursor formula (claim C1 / spec §4.4):
`start_j = tk_end + connectivity_lines + (weight_lines if wf1 == 1)`
with `connectivity_lines = ceil(npr/8) * nps * npt` and an equal weight
line count.  Modelled from the spec's words, to be compared with
`block_line_formula`. -/
def claim_start_formula (p : PatchRec) : ℤ :=
  p.tkEnd + (p.npr + 7).fdiv 8 * (p.nps * p.npt) +
    (if p.wf1 = 1 then (p.npr + 7).fdiv 8 * (p.nps * p.npt) else 0)

/-- End line (exclusive) of the r-direction knot block of a decoded
patch: `rk_end = (rk + 7) // 8 + (block_line + 2)` (line 188). -/
def knot_r_end (p : PatchRec) : ℤ :=
  (p.npr + p.pr + 1 + 7).fdiv 8 + (p.blockLine + 2)

/-- End line (exclusive) of the s-direction knot block (line 189). -/
def knot_s_end (p : PatchRec) : ℤ :=
  knot_r_end p + (p.nps + p.ps + 1 + 7).fdiv 8

/-- End line (exclusive) of the t-direction knot block (line 190). -/
def knot_t_end (p : PatchRec) : ℤ :=
  knot_s_end p + (p.npt + p.pt + 1 + 7).fdiv 8

/-- The contiguous ascending id block `a, a+1, ..., a+n-1`. -/
def idRange (a : ℤ) : ℕ → List ℤ
  | 0 => []
  | n + 1 => a :: idRange (a + 1) n

/-- `CommentInsertion ls ls'` holds when `ls'` is `ls` with extra
`$#`-comment lines inserted at arbitrary positions. -/
inductive CommentInsertion : List SLine → List SLine → Prop
  | nil : CommentInsertion [] []
  | keep (l : SLine) {ls ls' : List SLine} :
      CommentInsertion ls ls' → CommentInsertion (l :: ls) (l :: ls')
  | ins (c : SLine) (hc : c.comment = true) {ls ls' : List SLine} :
      CommentInsertion ls ls' → CommentInsertion ls (c :: ls')

/-! ### Concrete inputs used by witnesses and counterexamples -/

/-- A non-comment section line with the given tokens. -/
def dl (ts : List Tok) : SLine := ⟨false, ts⟩

/-- A line of integer tokens. -/
def iL (ns : List ℤ) : List Tok := ns.map Tok.int

/-- Section body with two patches: a non-rational patch
(`npr=2, pr=1, nps=npt=1, ps=pt=0, wf1=0`) followed by a rational one
(`npr=3, pr=1, wf1=1`) with three non-zero weights. -/
def c6lines : List SLine :=
  [dl (iL [1, 1, 2, 1, 1, 0, 1, 0]),
   dl (iL [0, 2, 2, 2, 0, 0, 0, 0]),
   dl (iL [0, 0, 1, 1]),
   dl (iL [0, 1]),
   dl (iL [0, 1]),
   dl (iL [1, 2]),
   dl (iL [2, 1, 3, 1, 1, 0, 1, 0]),
   dl (iL [1, 2, 2, 2, 0, 0, 0, 0]),
   dl (iL [0, 0, 1, 2, 2]),
   dl (iL [0, 1]),
   dl (iL [0, 1]),
   dl (iL [1, 2, 3]),
   dl (iL [1, 1, 1])]

/-- Minimal two-patch section (both non-rational, `npr=1`), used to
exercise the scanner on a successful decode. -/
def w1lines : List Line :=
  [iL [1, 1, 1, 0, 1, 0, 1, 0],
   iL [0, 2, 2, 2, 0, 0, 0, 0],
   iL [0, 1],
   iL [0, 1],
   iL [0, 1],
   iL [1],
   iL [2, 1, 1, 0, 1, 0, 1, 0],
   iL [0, 2, 2, 2, 0, 0, 0, 0],
   iL [0, 1],
   iL [0, 1],
   iL [0, 1],
   iL [1]]

/-- The first patch record decoded from `w1lines`. -/
def w1rec0 : PatchRec :=
  ⟨0, 1, 1, 1, 0, 1, 0, 1, 0, 0, 2, 2, 2, 0, [0, 0, 0], 5,
   [0, 1], [0, 1], [0, 1], [], 1, [1], []⟩

/-- The second patch record decoded from `w1lines`. -/
def w1rec1 : PatchRec :=
  ⟨6, 2, 1, 1, 0, 1, 0, 1, 0, 0, 2, 2, 2, 0, [0, 0, 0], 11,
   [0, 1], [0, 1], [0, 1], [], 2, [2], []⟩

/-- Two-patch section whose first patch is rational with `npr = 8`
(a multiple of 8): the code's cursor step `((npr//8)+1)*2*(nps*npt)`
differs from the claimed `2*ceil(npr/8)*(nps*npt)` on it. -/
def ce1lines : List Line :=
  [iL [1, 1, 8, 0, 1, 0, 1, 0],
   iL [1, 2, 2, 2, 0, 0, 0, 0],
   iL [0, 0, 0, 0, 1, 1, 1, 1],
   iL [2],
   iL [0, 1],
   iL [0, 1],
   iL [0],
   iL [0],
   iL [1, 1, 1, 1],
   iL [1, 1, 1, 1],
   iL [2, 1, 2, 0, 1, 0, 1, 0],
   iL [0, 2, 2, 2, 0, 0, 0, 0],
   iL [0, 1, 2],
   iL [0, 1],
   iL [0, 1],
   iL [0]]

/-- One rational patch (`npr=2, nps=npt=1`, so `npr*nps*npt = 2`) whose
weight line `[1, 0]` filters to the single non-zero entry `[1]`:
non-empty but shorter than `npr*nps*npt`. -/
def ce2lines : List SLine :=
  [dl (iL [1, 1, 2, 0, 1, 0, 1, 0]),
   dl (iL [1, 2, 2, 2, 0, 0, 0, 0]),
   dl (iL [0, 1, 2]),
   dl (iL [0, 1]),
   dl (iL [0, 1]),
   dl (iL [0]),
   dl (iL [1, 0])]

/-- One rational patch with `npr=1, pr=0` (so `npr+pr+1 = 2`) whose
single r-knot line carries three values `[0, 1, 2]`: one more than the
knot-vector length rule allows. -/
def ce3lines : List SLine :=
  [dl (iL [1, 1, 1, 0, 1, 0, 1, 0]),
   dl (iL [1, 2, 2, 2, 0, 0, 0, 0]),
   dl (iL [0, 1, 2]),
   dl (iL [0, 1]),
   dl (iL [0, 1]),
   dl (iL [0]),
   dl (iL [1])]

/-! ## Lemmas and claim theorems -/

theorem pyMapM_length : ∀ {l : List α} {f : α → Option β} {r : List β},
    pyMapM l f = some r → r.length = l.length := by
  intro l
  induction l with
  | nil => intro f r h; simp [pyMapM] at h; simp [← h]
  | cons a t ih =>
    intro f r h
    simp only [pyMapM, Option.bind_eq_some, Option.map_eq_some'] at h
    obtain ⟨b, _, bs, hbs, rfl⟩ := h
    simp [ih hbs]

theorem pyMapM_total {l : List α} {f : α → Option β} {g : α → β}
    (h : ∀ a ∈ l, f a = some (g a)) : pyMapM l f = some (l.map g) := by
  induction l with
  | nil => simp [pyMapM]
  | cons a t ih =>
    simp only [pyMapM, h a (List.mem_cons_self a t), Option.bind_some]
    rw [ih fun x hx => h x (List.mem_cons_of_mem a hx)]
    simp

theorem pyMapM_append {l1 l2 : List α} {f : α → Option β} :
    pyMapM (l1 ++ l2) f =
      (pyMapM l1 f).bind fun r1 => (pyMapM l2 f).map fun r2 => r1 ++ r2 := by
  induction l1 with
  | nil =>
    simp only [List.nil_append, pyMapM, Option.some_bind]
    cases pyMapM l2 f <;> simp
  | cons a t ih =>
    simp only [List.cons_append, pyMapM, List.append_eq]
    rw [ih]
    cases f a with
    | none => simp
    | some b =>
      cases pyMapM t f with
      | none => simp
      | some r1 =>
        cases pyMapM l2 f with
        | none => simp
        | some r2 => simp

theorem pyMapM_eq_none_iff {l : List α} {f : α → Option β} :
    pyMapM l f = none ↔ ∃ a ∈ l, f a = none := by
  induction l with
  | nil => simp [pyMapM]
  | cons a t ih =>
    simp only [pyMapM]
    cases h : f a with
    | none => simp [h]
    | some b =>
      simp only [Option.some_bind]
      cases ht : pyMapM t f <;> simp_all

theorem pyGet_natCast (l : List α) (i : ℕ) : pyGet l (i : ℤ) = l.get? i := by
  simp [pyGet, Int.toNat_natCast]

/-! ### Rotation claims -/

theorem transform_node_step_invalid {axis : String}
    (h : ¬(axis = "x" ∨ axis = "y" ∨ axis = "z")) (c s : ℝ) (n : NodeR) :
    transform_node_step c s axis n = none := by
  push_neg at h
  simp [transform_node_step, h.1, h.2.1, h.2.2]

theorem transform_node_step_eq_claim {axis : String}
    (h : axis = "x" ∨ axis = "y" ∨ axis = "z") (θ : ℝ) (n : NodeR) :
    transform_node_step (Real.cos (radians θ)) (Real.sin (radians θ)) axis n =
      some (claim_rotated_node θ axis n) := by
  obtain ⟨num, x, y, z⟩ := n
  rcases h with h | h | h <;> subst h <;>
    simp only [transform_node_step, claim_rotated_node, rot2,
      String.reduceEq, reduceIte, Option.some.injEq, NodeR.mk.injEq] <;>
    and_intros <;> first | rfl | ring_nf

/-- Claim C4: for every node table, angle and axis in {x, y, z}, the
rotation transform returns a table of the same length with the same node
ids in the same order, the coordinate on the rotation axis unchanged,
and the other two coordinates rotated by the standard 2D rotation matrix
with the stated per-axis sign convention (`claim_rotated_node` is that
specification-side description). -/
theorem claim_C4_rotation_matches_spec (ns : List NodeR) (θ : ℝ)
    (axis : String) (h : axis = "x" ∨ axis = "y" ∨ axis = "z") :
    transform_nodes ns θ axis = some (ns.map (claim_rotated_node θ axis)) ∧
    (ns.map (claim_rotated_node θ axis)).length = ns.length ∧
    (ns.map (claim_rotated_node θ axis)).map NodeR.num = ns.map NodeR.num := by
  refine ⟨?_, by simp, ?_⟩
  · unfold transform_nodes
    exact pyMapM_total fun n _ => transform_node_step_eq_claim h θ n
  · rw [List.map_map]
    apply List.map_congr_left
    intro n _
    rcases h with h | h | h <;> subst h <;>
      simp [claim_rotated_node, Function.comp]

/-- Witness for C4 at the node table `[(1, 0, 0, 0)]`, angle `0`,
axis `"x"`. -/
theorem claim_C4_rotation_matches_spec_witness :
    ((("x" : String) = "x" ∨ ("x" : String) = "y" ∨ ("x" : String) = "z") ∧
      (transform_nodes [⟨1, 0, 0, 0⟩] 0 "x" =
          some ([(⟨1, 0, 0, 0⟩ : NodeR)].map (claim_rotated_node 0 "x")) ∧
        ([(⟨1, 0, 0, 0⟩ : NodeR)].map (claim_rotated_node 0 "x")).length = 1 ∧
        ([(⟨1, 0, 0, 0⟩ : NodeR)].map (claim_rotated_node 0 "x")).map
            NodeR.num = [1])) :=
  ⟨Or.inl rfl, claim_C4_rotation_matches_spec [⟨1, 0, 0, 0⟩] 0 "x" (Or.inl rfl)⟩

/-- Claim C9: rotating by 0 degrees (about any valid axis) is exactly
the identity on the node table. -/
theorem claim_C9_zero_angle_identity (ns : List NodeR) (axis : String)
    (h : axis = "x" ∨ axis = "y" ∨ axis = "z") :
    transform_nodes ns 0 axis = some ns := by
  unfold transform_nodes
  have hstep : ∀ n ∈ ns,
      transform_node_step (Real.cos (radians 0)) (Real.sin (radians 0))
        axis n = some (id n) := by
    intro n _
    obtain ⟨num, x, y, z⟩ := n
    rcases h with h | h | h <;> subst h <;>
      simp [transform_node_step, radians]
  rw [pyMapM_total hstep, List.map_id]

/-- Witness for C9 at the node table `[(1, 0, 0, 0)]`, axis `"x"`. -/
theorem claim_C9_zero_angle_identity_witness :
    ((("x" : String) = "x" ∨ ("x" : String) = "y" ∨ ("x" : String) = "z") ∧
      transform_nodes [⟨1, 0, 0, 0⟩] 0 "x" = some [⟨1, 0, 0, 0⟩]) :=
  ⟨Or.inl rfl, claim_C9_zero_angle_identity [⟨1, 0, 0, 0⟩] "x" (Or.inl rfl)⟩

/-- Claim C7 counterexample: the claim says the transform fails exactly
when the axis is outside {x, y, z}, but with invalid axis `"w"` and an
empty node table the transform returns successfully (the `ValueError`
is raised inside the per-node loop, whose body never runs). -/
theorem claim_C7_counterexample : transform_nodes [] 0 "w" = some [] := rfl

/-- Claim C7, amended: the rotation transform fails (with the
invalid-axis error) if and only if the axis is outside {x, y, z} *and*
the node table is non-empty; for any axis in the set it never fails. -/
theorem claim_C7_invalid_axis_iff (ns : List NodeR) (θ : ℝ) (axis : String) :
    transform_nodes ns θ axis = none ↔
      ¬(axis = "x" ∨ axis = "y" ∨ axis = "z") ∧ ns ≠ [] := by
  unfold transform_nodes
  by_cases h : axis = "x" ∨ axis = "y" ∨ axis = "z"
  · rw [pyMapM_total fun n _ => transform_node_step_eq_claim h θ n]
    simp [h]
  · cases ns with
    | nil => simp [pyMapM, h]
    | cons a t =>
      simp only [pyMapM, transform_node_step_invalid h]
      simp [h]

/-! ### Renumbering and merging: id-block lemmas -/

theorem idRange_length (a : ℤ) : ∀ n, (idRange a n).length = n := by
  intro n
  induction n generalizing a with
  | zero => rfl
  | succ m ih => simp [idRange, ih]

theorem mem_idRange {x a : ℤ} : ∀ {n : ℕ}, x ∈ idRange a n ↔ a ≤ x ∧ x < a + n := by
  intro n
  induction n generalizing a with
  | zero => simp [idRange]
  | succ m ih =>
    simp only [idRange, List.mem_cons, ih]
    omega

theorem idRange_append (a : ℤ) : ∀ m n : ℕ,
    idRange a (m + n) = idRange a m ++ idRange (a + m) n := by
  intro m
  induction m generalizing a with
  | zero => intro n; simp [idRange]
  | succ k ih =>
    intro n
    have : k + 1 + n = (k + n) + 1 := by omega
    rw [this]
    simp only [idRange, List.cons_append, List.cons.injEq, true_and]
    rw [ih (a + 1) n]
    congr 2
    push_cast
    ring

theorem idRange_pairwise (a : ℤ) : ∀ n, (idRange a n).Pairwise (· ≤ ·) := by
  intro n
  induction n generalizing a with
  | zero => exact List.Pairwise.nil
  | succ m ih =>
    refine List.Pairwise.cons ?_ (ih (a + 1))
    intro x hx
    have := mem_idRange.mp hx
    omega

theorem foldl_max_idRange : ∀ (n : ℕ) (b x : ℤ), x ≤ b →
    (idRange b (n + 1)).foldl max x = b + n := by
  intro n
  induction n with
  | zero => intro b x h; simp [idRange, max_eq_right h]
  | succ m ih =>
    intro b x h
    show ((idRange (b + 1) (m + 1)).foldl max (max x b)) = b + (m + 1 : ℕ)
    rw [max_eq_right h, ih (b + 1) b (by omega)]
    push_cast
    ring

theorem py_max_idRange (a : ℤ) (n : ℕ) :
    py_max (idRange a (n + 1)) = some (a + n) := by
  cases n with
  | zero => simp [idRange, py_max]
  | succ m =>
    show some ((idRange (a + 1) (m + 1)).foldl max a) = _
    rw [foldl_max_idRange m (a + 1) a (by omega)]
    congr 1
    push_cast
    ring

theorem update_node_numbers_aux_ids (mx : ℤ) : ∀ (ns : List NodeR) (i : ℕ),
    (update_node_numbers_aux mx i ns).map NodeR.num =
      idRange (mx + i + 1) ns.length := by
  intro ns
  induction ns with
  | nil => intro i; rfl
  | cons n t ih =>
    intro i
    simp only [update_node_numbers_aux, List.map_cons, List.length_cons,
      idRange, List.cons.injEq, true_and]
    rw [ih (i + 1)]
    congr 2
    push_cast
    ring

theorem update_node_numbers_ids (ns : List NodeR) (mx : ℤ) :
    (update_node_numbers ns mx).map NodeR.num = idRange (mx + 1) ns.length := by
  have := update_node_numbers_aux_ids mx ns 0
  simpa [update_node_numbers] using this

theorem merge_nodes_of_blocks {merged upd : List NodeR} {a : ℤ} {m n : ℕ}
    (hm : merged.map NodeR.num = idRange a m)
    (hu : upd.map NodeR.num = idRange (a + m) n) :
    merge_nodes merged upd = merged ++ upd := by
  apply List.Sorted.insertionSort_eq
  rw [List.Sorted, List.pairwise_append]
  refine ⟨?_, ?_, ?_⟩
  · have := idRange_pairwise a m
    rw [← hm, List.pairwise_map] at this
    exact this
  · have := idRange_pairwise (a + m) n
    rw [← hu, List.pairwise_map] at this
    exact this
  · intro u hu' v hv'
    have h1 : u.num ∈ idRange a m := by
      rw [← hm]; exact List.mem_map_of_mem NodeR.num hu'
    have h2 : v.num ∈ idRange (a + m) n := by
      rw [← hu]; exact List.mem_map_of_mem NodeR.num hv'
    have := mem_idRange.mp h1
    have := mem_idRange.mp h2
    omega

theorem transform_nodes_ids {axis : String}
    (h : axis = "x" ∨ axis = "y" ∨ axis = "z") (ns : List NodeR) (θ : ℝ) :
    ∃ ts, transform_nodes ns θ axis = some ts ∧
      ts.map NodeR.num = ns.map NodeR.num := by
  refine ⟨ns.map (claim_rotated_node θ axis), ?_, ?_⟩
  · unfold transform_nodes
    exact pyMapM_total fun n _ => transform_node_step_eq_claim h θ n
  · rw [List.map_map]
    apply List.map_congr_left
    intro n _
    rcases h with h | h | h <;> subst h <;>
      simp [claim_rotated_node, Function.comp]

theorem idRange_blocks (a : ℤ) (n : ℕ) : ∀ k : ℕ,
    idRange a (k * n) =
      ((List.range k).map fun i : ℕ => idRange (a + (i : ℤ) * (n : ℤ)) n).flatten := by
  intro k
  induction k generalizing a with
  | zero => simp [idRange]
  | succ j ih =>
    have hkn : (j + 1) * n = n + j * n := by ring
    rw [hkn, idRange_append a n (j * n), List.range_succ_eq_map]
    simp only [List.map_cons, List.flatten_cons, List.map_map]
    congr 1
    · congr 1
      push_cast
      ring
    · rw [ih (a + n)]
      congr 1
      apply List.map_congr_left
      intro i _
      simp only [Function.comp_apply]
      congr 1
      push_cast
      ring

theorem patches_merge_loop_ids {orig : List NodeR} {axis : String}
    (hax : axis = "x" ∨ axis = "y" ∨ axis = "z") {a : ℤ} {n : ℕ}
    (horig : orig.map NodeR.num = idRange a n) :
    ∀ (angles : List ℝ) (merged : List NodeR) (m : ℕ), 1 ≤ m →
      merged.map NodeR.num = idRange a m →
      ∃ res, patches_merge_loop orig axis angles merged = some res ∧
        res.map NodeR.num = idRange a (m + angles.length * n) := by
  have hlen : orig.length = n := by
    have := congrArg List.length horig
    simpa [idRange_length] using this
  intro angles
  induction angles with
  | nil =>
    intro merged m _ hm
    exact ⟨merged, rfl, by simpa using hm⟩
  | cons angle rest ih =>
    intro merged m hm1 hmids
    obtain ⟨ts, hts, htsids⟩ := transform_nodes_ids hax orig angle
    have htslen : ts.length = n := by
      have := congrArg List.length htsids
      simpa [hlen] using this
    have hmlen : merged.length = m := by
      have := congrArg List.length hmids
      simpa [idRange_length] using this
    have hne : merged.isEmpty = false := by
      cases merged with
      | nil => simp at hmlen; omega
      | cons x t => rfl
    obtain ⟨k, rfl⟩ : ∃ k, m = k + 1 := ⟨m - 1, by omega⟩
    have hmax : py_max (merged.map NodeR.num) = some (a + k) := by
      rw [hmids]; exact py_max_idRange a k
    have hupd : (update_node_numbers ts (a + k)).map NodeR.num =
        idRange (a + (k + 1 : ℕ)) n := by
      rw [update_node_numbers_ids, htslen]
      congr 1
      push_cast
      ring
    have hmerge : merge_nodes merged (update_node_numbers ts (a + k)) =
        merged ++ update_node_numbers ts (a + k) :=
      merge_nodes_of_blocks hmids hupd
    have hcat : (merged ++ update_node_numbers ts (a + k)).map NodeR.num =
        idRange a ((k + 1) + n) := by
      rw [List.map_append, hmids, hupd]
      exact (idRange_append a (k + 1) n).symm
    obtain ⟨res, hres, hresids⟩ :=
      ih (merge_nodes merged (update_node_numbers ts (a + k)))
        ((k + 1) + n) (by omega) (by rw [hmerge]; exact hcat)
    refine ⟨res, ?_, ?_⟩
    · show (transform_nodes orig angle axis).bind _ = some res
      rw [hts, Option.some_bind, hne]
      simpa [hmax] using hres
    · rw [hresids]
      congr 1
      simp only [List.length_cons]
      ring

/-- Claim C5, amended: provided the original node table is non-empty
and its ids form the contiguous ascending block `a, ..., a+n-1`, after
merging the original table with all rotation copies for a batch of `N`
angles the final node count equals `(N+1)·n`, and the resulting ids are
exactly the contiguous ascending run `a, ..., a+(N+1)·n-1` — that is,
they partition into `N+1` pairwise disjoint contiguous ascending blocks
`a+i·n, ..., a+(i+1)·n-1`, in the order the rotation copies were
processed. -/
theorem claim_C5_merged_id_blocks (orig : List NodeR) (angles : List ℝ)
    (axis : String) (a : ℤ) (n : ℕ)
    (hax : axis = "x" ∨ axis = "y" ∨ axis = "z")
    (horig : orig.map NodeR.num = idRange a n) (hn : 1 ≤ n) :
    ∃ res, patches_transformed_nodes orig angles axis = some res ∧
      res.length = (angles.length + 1) * n ∧
      res.map NodeR.num = idRange a ((angles.length + 1) * n) ∧
      res.map NodeR.num =
        ((List.range (angles.length + 1)).map
          fun i : ℕ => idRange (a + (i : ℤ) * (n : ℤ)) n).flatten := by
  obtain ⟨res, hres, hids⟩ :=
    patches_merge_loop_ids hax horig angles orig n hn horig
  have hcount : n + angles.length * n = (angles.length + 1) * n := by ring
  refine ⟨res, hres, ?_, ?_, ?_⟩
  · have := congrArg List.length hids
    simpa [idRange_length, hcount] using this
  · rw [hids, hcount]
  · rw [hids, hcount, idRange_blocks]

/-- Witness for C5 at the one-node table `[(1, 0, 0, 0)]`, a single
rotation angle `0`, axis `"x"` (so `a = 1`, `n = 1`, `N = 1`). -/
theorem claim_C5_merged_id_blocks_witness :
    ((("x" : String) = "x" ∨ ("x" : String) = "y" ∨ ("x" : String) = "z") ∧
      [(⟨1, 0, 0, 0⟩ : NodeR)].map NodeR.num = idRange 1 1 ∧ 1 ≤ 1 ∧
      ∃ res, patches_transformed_nodes [⟨1, 0, 0, 0⟩] [0] "x" = some res ∧
        res.length = ([(0 : ℝ)].length + 1) * 1 ∧
        res.map NodeR.num = idRange 1 (([(0 : ℝ)].length + 1) * 1) ∧
        res.map NodeR.num =
          ((List.range ([(0 : ℝ)].length + 1)).map
            fun i : ℕ => idRange (1 + (i : ℤ) * (1 : ℤ)) 1).flatten) :=
  ⟨Or.inl rfl, rfl, le_refl 1,
    claim_C5_merged_id_blocks [⟨1, 0, 0, 0⟩] [0] "x" 1 1 (Or.inl rfl) rfl
      (le_refl 1)⟩

/-- Claim C5 counterexample: for the original table with the
non-contiguous ids `[1, 3]` and one rotation angle, the merged result
has ids `[1, 3, 4, 5]`, whose first (original-copy) block `[1, 3]` is
not a contiguous ascending block — refuting the claim's "each copy's
ids form a contiguous ascending block" for this input (a length-2
contiguous ascending block would have to be of the form `[b, b+1]`). -/
theorem claim_C5_counterexample :
    (patches_transformed_nodes [⟨1, 0, 0, 0⟩, ⟨3, 0, 0, 0⟩] [0] "x").map
        (fun res => res.map NodeR.num) = some [1, 3, 4, 5] ∧
    ¬ ∃ b : ℤ, [(1 : ℤ), 3] = [b, b + 1] := by
  constructor
  · obtain ⟨ts, hts, hids⟩ :=
      transform_nodes_ids (Or.inl rfl) [⟨1, 0, 0, 0⟩, ⟨3, 0, 0, 0⟩] 0
    have hlen := congrArg List.length hids
    obtain ⟨t1, t2, rfl⟩ : ∃ t1 t2, ts = [t1, t2] := by
      cases ts with
      | nil => simp at hlen
      | cons x l =>
        cases l with
        | nil => simp at hlen
        | cons y l2 =>
          cases l2 with
          | nil => exact ⟨x, y, rfl⟩
          | cons z l3 => simp at hlen
    simp only [List.map_cons, List.map_nil, List.cons.injEq] at hids
    obtain ⟨h1, h3, -⟩ := hids
    have hmax : py_max [(1 : ℤ), 3] = some 3 := by decide
    unfold patches_transformed_nodes patches_merge_loop
    rw [hts, Option.some_bind]
    norm_num [hmax, patches_merge_loop, merge_nodes, update_node_numbers,
      update_node_numbers_aux, List.insertionSort, List.orderedInsert,
      h1, h3]
  · rintro ⟨b, hb⟩
    simp only [List.cons.injEq] at hb
    omega

/-- Claim C8, amended: every section line that *has at least one token*
and fails numeric parsing (first token not an integer, or the next
three tokens not three reals) is silently skipped — inserting such a
line anywhere leaves extraction unchanged.  (A token-free line, and
hence an empty section, instead raises an uncaught `IndexError`; see
the counterexample.) -/
theorem claim_C8_bad_line_skipped (pre post : List Line) (bad : Line)
    (h : parse_node_line bad = some none) :
    extract_node_coordinates (pre ++ bad :: post) =
      extract_node_coordinates (pre ++ post) := by
  unfold extract_node_coordinates
  rw [pyMapM_append, pyMapM_append]
  simp only [pyMapM, h, Option.some_bind]
  cases pyMapM pre parse_node_line with
  | none => simp
  | some r1 =>
    cases pyMapM post parse_node_line with
    | none => simp
    | some r2 => simp [List.filterMap_append]

/-- Witness for C8: inserting the junk line `["$#comment"]` before a
well-formed node line does not change the extracted table. -/
theorem claim_C8_bad_line_skipped_witness :
    parse_node_line [Tok.other] = some none ∧
    extract_node_coordinates
        ([] ++ [Tok.other] :: [[Tok.int 1, Tok.real 0, Tok.real 0, Tok.real 0]]) =
      extract_node_coordinates
        ([] ++ [[Tok.int 1, Tok.real 0, Tok.real 0, Tok.real 0]]) :=
  ⟨rfl, claim_C8_bad_line_skipped []
    [[Tok.int 1, Tok.real 0, Tok.real 0, Tok.real 0]] [Tok.other] rfl⟩

/-- Claim C8 counterexample: an empty `*NODE` section body (which
splits into the single token-free line) makes extraction raise an
uncaught `IndexError` at `parts[0]` (the `except` clause only catches
`ValueError`), rather than yield an empty table. -/
theorem claim_C8_counterexample : extract_node_coordinates [[]] = none := rfl

/-- Claim C10: removing `$#` comment lines happens before any cursor
arithmetic, so the decoder/replicator output is unchanged by inserting
`$#`-prefixed comment lines anywhere inside the section. -/
theorem claim_C10_comment_insertion (ls ls' : List SLine) (angles : List ℝ)
    (inital : ℤ) (h : CommentInsertion ls ls') :
    merge_nurbs_patches ls' angles inital =
      merge_nurbs_patches ls angles inital := by
  have hfilter : ls'.filter (fun l => !l.comment) =
      ls.filter (fun l => !l.comment) := by
    induction h with
    | nil => rfl
    | keep l _ ih => simp [List.filter_cons, ih]
    | ins c hc _ ih => simp [List.filter_cons, hc, ih]
  unfold merge_nurbs_patches
  rw [hfilter]

/-- Witness for C10: inserting one comment line after a non-comment
line leaves the replicator output unchanged. -/
theorem claim_C10_comment_insertion_witness :
    CommentInsertion [dl []] [dl [], ⟨true, []⟩] ∧
    merge_nurbs_patches [dl [], ⟨true, []⟩] [] 0 =
      merge_nurbs_patches [dl []] [] 0 :=
  ⟨CommentInsertion.keep _ (CommentInsertion.ins ⟨true, []⟩ rfl
      CommentInsertion.nil),
    claim_C10_comment_insertion _ _ [] 0
      (CommentInsertion.keep _ (CommentInsertion.ins ⟨true, []⟩ rfl
        CommentInsertion.nil))⟩

/-- Claim C2, amended: weight emission for a decoded rational patch
raises an uncaught `IndexError` (rather than stopping) exactly when the
non-zero-filtered weight sequence is non-empty but shorter than
`npr*nps*npt`; it completes only when that sequence is empty or has at
least `npr*nps*npt` entries. -/
theorem claim_C2_weight_emission_iff (wv : List ℚ) (cnt : ℤ) :
    emit_weights wv cnt = none ↔ wv ≠ [] ∧ wv.length < cnt.toNat := by
  unfold emit_weights
  by_cases hwv : wv = []
  · simp [hwv]
  · rw [if_neg hwv, pyMapM_eq_none_iff]
    constructor
    · rintro ⟨l, hl, hget⟩
      rw [List.mem_range] at hl
      rw [pyGet_natCast] at hget
      have := List.get?_eq_none.mp hget
      exact ⟨hwv, by omega⟩
    · rintro ⟨-, hlen⟩
      refine ⟨wv.length, List.mem_range.mpr hlen, ?_⟩
      rw [pyGet_natCast]
      exact List.get?_eq_none.mpr (le_refl _)

/-- Claim C2 counterexample: on `ce2lines` (one rational patch with
`npr*nps*npt = 2` whose filtered weight list is `[1]`, non-empty but
shorter), the replicator fails with an out-of-range access instead of
completing. -/
theorem claim_C2_counterexample : merge_nurbs_patches ce2lines [] 1 = none := by
  decide

/-- Claim C6: with the two-patch input `c6lines`,
`inital_nurbs_patches = 2` and angles `[90, 180, 270]`, the output
patch section contains exactly 8 patches (2 patches × 4 copies,
including the untransformed copy) whose emitted `patch_id` values are
strictly increasing 1 through 8. -/
theorem claim_C6_eight_patches :
    (merge_nurbs_patches c6lines [(90 : ℝ), 180, 270] 2).map
        (fun rs => rs.map PatchRec.patchIdOut) =
      some [1, 2, 3, 4, 5, 6, 7, 8] ∧
    (merge_nurbs_patches c6lines [(90 : ℝ), 180, 270] 2).map List.length =
      some 8 := by
  constructor <;> decide

/-! ### Decoder claims (C1, C3) -/

/-- Inversion of `decodeAt`: a successfully decoded patch records the
cursor it was decoded at, its `tk_end` satisfies the knot-block line
arithmetic of lines 188-190, and its knot vectors are exactly the
flattened float parses of the corresponding line slices. -/
theorem decodeAt_inv {lines : List Line} {bl : ℤ} {r : RunSt}
    {p : PatchRec} {r' : RunSt} (h : decodeAt lines bl r = some (p, r')) :
    p.blockLine = bl ∧
    p.tkEnd = knot_t_end p ∧
    read_reals lines (p.blockLine + 2) (knot_r_end p) = some p.knotR ∧
    read_reals lines (knot_r_end p) (knot_s_end p) = some p.knotS ∧
    read_reals lines (knot_s_end p) (knot_t_end p) = some p.knotT := by
  unfold decodeAt at h
  simp only [Option.bind_eq_some] at h
  obtain ⟨⟨npeid, pid, npr, pr, nps, ps, npt, pt⟩, h1, h⟩ := h
  obtain ⟨⟨wf1, nisr, niss, nist, imass, other_values⟩, h2, h⟩ := h
  obtain ⟨knot_r, hkr, h⟩ := h
  obtain ⟨knot_s, hks, h⟩ := h
  obtain ⟨knot_t, hkt, h⟩ := h
  obtain ⟨wraw, hw, h⟩ := h
  obtain ⟨nk, hnk, h⟩ := h
  obtain ⟨wout, hwout, h⟩ := h
  rw [Option.some.injEq, Prod.mk.injEq] at h
  obtain ⟨hp, hr⟩ := h
  subst hp
  exact ⟨rfl, rfl, hkr, hks, hkt⟩

theorem decode_emit_patch_inv {lines : List Line} {d : DecSt} {r : RunSt}
    {p : PatchRec} {d' : DecSt} {r' : RunSt}
    (h : decode_emit_patch lines d r = some (p, d', r')) :
    p.blockLine = block_line_formula d ∧ d' = decStOf p := by
  unfold decode_emit_patch at h
  rw [Option.map_eq_some'] at h
  obtain ⟨⟨p0, r0⟩, hda, heq⟩ := h
  rw [Prod.mk.injEq] at heq
  obtain ⟨hp, heq2⟩ := heq
  rw [Prod.mk.injEq] at heq2
  obtain ⟨hd, hr⟩ := heq2
  subst hp
  subst hd
  exact ⟨(decodeAt_inv hda).1, rfl⟩

theorem read_reals_length {lines : List Line} {a b : ℤ} {ks : List ℚ}
    (h : read_reals lines a b = some ks) :
    ks.length = ((pySlice lines a b).map List.length).sum := by
  unfold read_reals at h
  rw [pyMapM_length h, List.length_flatten]

/-- Claim C1, amended: within one copy, the decoder computes patch
`j`'s start line from patch `j-1`'s already-decoded header as
`start_j = tk_end + ((npr // 8) + 1) * 2 * (nps * npt)` when
`wf1 == 1`, and `start_j = tk_end + nps * npt` otherwise
(`block_line_formula`); the first patch of every copy starts at the
fixed offset 0 of the comment-stripped section
(`block_line_formula decSt0 = 0`).  The claimed
`tk_end + ceil(npr/8)*nps*npt + (ceil(npr/8)*nps*npt if wf1==1)` is
not the computed cursor (see the counterexample). -/
theorem claim_C1_cursor_recurrence (lines : List Line) (n : ℕ) (d : DecSt)
    (r : RunSt) (ps : List PatchRec) (rEnd : RunSt)
    (h : runCopy lines n d r = some (ps, rEnd)) :
    block_line_formula decSt0 = 0 ∧
    (∀ h0 : 0 < ps.length, (ps.get ⟨0, h0⟩).blockLine = block_line_formula d) ∧
    (∀ (j : ℕ) (hj : j + 1 < ps.length),
      (ps.get ⟨j + 1, hj⟩).blockLine =
        block_line_formula (decStOf (ps.get ⟨j, by omega⟩))) := by
  refine ⟨rfl, ?_⟩
  induction n generalizing d r ps rEnd with
  | zero =>
    unfold runCopy at h
    rw [Option.some.injEq, Prod.mk.injEq] at h
    obtain ⟨hps, -⟩ := h
    subst hps
    exact ⟨fun h0 => absurd h0 (by simp), fun j hj => absurd hj (by simp)⟩
  | succ m ih =>
    unfold runCopy at h
    simp only [Option.bind_eq_some] at h
    obtain ⟨⟨p, d2, r2⟩, hde, h⟩ := h
    obtain ⟨⟨tail, r3⟩, htail, heq⟩ := h
    rw [Option.some.injEq, Prod.mk.injEq] at heq
    obtain ⟨hps, hrE⟩ := heq
    subst hps
    obtain ⟨hbl, hd2⟩ := decode_emit_patch_inv hde
    have ihtail := ih d2 r2 tail r3 htail
    constructor
    · intro h0
      exact hbl
    · intro j hj
      cases j with
      | zero =>
        have h0 : 0 < tail.length := by simpa using hj
        show (tail.get ⟨0, h0⟩).blockLine = _
        rw [ihtail.1 h0, hd2]
        rfl
      | succ i =>
        have hj' : i + 1 < tail.length := by simpa using hj
        exact ihtail.2 i hj'

/-- Witness for C1: a successful two-patch decode of `w1lines`, where
patch 1's start line (6) is patch 0's `tk_end` (5) plus `nps*npt` (1),
per the non-rational branch of the recurrence. -/
theorem claim_C1_cursor_recurrence_witness :
    runCopy w1lines 2 decSt0 runSt0 = some ([w1rec0, w1rec1], ⟨2, 2, true⟩) ∧
    (block_line_formula decSt0 = 0 ∧
      (∀ h0 : 0 < ([w1rec0, w1rec1] : List PatchRec).length,
        (([w1rec0, w1rec1] : List PatchRec).get ⟨0, h0⟩).blockLine =
          block_line_formula decSt0) ∧
      (∀ (j : ℕ) (hj : j + 1 < ([w1rec0, w1rec1] : List PatchRec).length),
        (([w1rec0, w1rec1] : List PatchRec).get ⟨j + 1, hj⟩).blockLine =
          block_line_formula
            (decStOf (([w1rec0, w1rec1] : List PatchRec).get ⟨j, by omega⟩)))) :=
  ⟨by decide,
    claim_C1_cursor_recurrence w1lines 2 decSt0 runSt0 [w1rec0, w1rec1]
      ⟨2, 2, true⟩ (by decide)⟩

/-- Claim C1 counterexample: decoding `ce1lines` (patch 0 rational with
`npr = 8`), the decoder starts patch 1 at line 10, while the claim's
formula `tk_end + ceil(npr/8)*nps*npt + (ceil(npr/8)*nps*npt if
wf1==1)` applied to patch 0's header (`claim_start_formula`) yields 8. -/
theorem claim_C1_counterexample :
    (runCopy ce1lines 2 decSt0 runSt0).map
        (fun pr => (pr.1.map PatchRec.blockLine,
          pr.1.map claim_start_formula)) =
      some ([0, 10], [8, 16]) ∧ (10 : ℤ) ≠ 8 := by
  exact ⟨by decide, by decide⟩

/-- Claim C3, amended: each extracted knot vector is the flattening of
*all* values on its `ceil((n+p+1)/8)` lines — there is no truncation —
so its length is the total token count of those lines, and it equals
`n+p+1` exactly when the lines carry no extra values (8 per line with a
ragged last line). -/
theorem claim_C3_knot_flattening (lines : List Line) (bl : ℤ) (r : RunSt)
    (p : PatchRec) (r' : RunSt) (h : decodeAt lines bl r = some (p, r')) :
    (p.knotR.length =
        ((pySlice lines (p.blockLine + 2) (knot_r_end p)).map
          List.length).sum ∧
      p.knotS.length =
        ((pySlice lines (knot_r_end p) (knot_s_end p)).map
          List.length).sum ∧
      p.knotT.length =
        ((pySlice lines (knot_s_end p) (knot_t_end p)).map
          List.length).sum) ∧
    ((((pySlice lines (p.blockLine + 2) (knot_r_end p)).map
          List.length).sum = (p.npr + p.pr + 1).toNat →
        p.knotR.length = (p.npr + p.pr + 1).toNat) ∧
      (((pySlice lines (knot_r_end p) (knot_s_end p)).map
          List.length).sum = (p.nps + p.ps + 1).toNat →
        p.knotS.length = (p.nps + p.ps + 1).toNat) ∧
      (((pySlice lines (knot_s_end p) (knot_t_end p)).map
          List.length).sum = (p.npt + p.pt + 1).toNat →
        p.knotT.length = (p.npt + p.pt + 1).toNat)) := by
  obtain ⟨-, -, hkr, hks, hkt⟩ := decodeAt_inv h
  have hr := read_reals_length hkr
  have hs := read_reals_length hks
  have ht := read_reals_length hkt
  exact ⟨⟨hr, hs, ht⟩,
    fun he => hr.trans he, fun he => hs.trans he, fun he => ht.trans he⟩

/-- Witness for C3 at the first patch of `w1lines`: its single r-knot
line carries exactly `npr + pr + 1 = 2` values. -/
theorem claim_C3_knot_flattening_witness :
    decodeAt w1lines 0 runSt0 = some (w1rec0, ⟨1, 1, true⟩) ∧
    ((w1rec0.knotR.length =
        ((pySlice w1lines (w1rec0.blockLine + 2) (knot_r_end w1rec0)).map
          List.length).sum ∧
      w1rec0.knotS.length =
        ((pySlice w1lines (knot_r_end w1rec0) (knot_s_end w1rec0)).map
          List.length).sum ∧
      w1rec0.knotT.length =
        ((pySlice w1lines (knot_s_end w1rec0) (knot_t_end w1rec0)).map
          List.length).sum) ∧
    ((((pySlice w1lines (w1rec0.blockLine + 2) (knot_r_end w1rec0)).map
          List.length).sum = (w1rec0.npr + w1rec0.pr + 1).toNat →
        w1rec0.knotR.length = (w1rec0.npr + w1rec0.pr + 1).toNat) ∧
      (((pySlice w1lines (knot_r_end w1rec0) (knot_s_end w1rec0)).map
          List.length).sum = (w1rec0.nps + w1rec0.ps + 1).toNat →
        w1rec0.knotS.length = (w1rec0.nps + w1rec0.ps + 1).toNat) ∧
      (((pySlice w1lines (knot_s_end w1rec0) (knot_t_end w1rec0)).map
          List.length).sum = (w1rec0.npt + w1rec0.pt + 1).toNat →
        w1rec0.knotT.length = (w1rec0.npt + w1rec0.pt + 1).toNat))) :=
  ⟨by decide,
    claim_C3_knot_flattening w1lines 0 runSt0 w1rec0 ⟨1, 1, true⟩ (by decide)⟩

/-- Claim C3 counterexample: on `ce3lines` the decoded first patch has
`npr + pr + 1 = 2` but its extracted r-knot vector is `[0, 1, 2]` of
length 3 — the extra value on the last line is *not* truncated away. -/
theorem claim_C3_counterexample :
    (merge_nurbs_patches ce3lines [] 1).map
        (fun rs => rs.map fun p => (p.knotR, p.knotR.length,
          (p.npr + p.pr + 1).toNat)) =
      some [([0, 1, 2], 3, 2)] ∧ (3 : ℕ) ≠ 2 := by
  exact ⟨by decide, by decide⟩
